import Mathlib

set_option maxRecDepth 40000

/-!
Shallow embedding of the Tetrominoes board/piece simulation
(src/tetromino.rs, src/grid.rs, src/board.rs, src/game.rs).

Machine-integer conventions: Rust `i32` coordinates are modelled as `Int`;
the cast `as usize` (which sign-extends an `i32` and reinterprets it as a
64-bit unsigned integer) is modelled by `usizeOfInt`.  Rust functions that
can panic (`Grid::set` out of bounds, `Game::calc_score` above 4) return
`Option`; `none` models the panic.
-/

/-- Model of the Rust cast `i as usize` for an `i32` value `i`:
sign-extension to 64 bits reinterpreted as an unsigned integer,
i.e. `i` reduced modulo `2^64` into `[0, 2^64)`. -/
def usizeOfInt (i : Int) : Nat :=
  (i % (18446744073709551616 : Int)).toNat

/-- Shape of tetromino (src/tetromino.rs, `enum Shape`). -/
inductive Shape where
  | I | J | L | O | T | Z | S
deriving DecidableEq, Repr

namespace Shape

/-- Positions of the squares which represent this shape in a 4x4 grid
(src/tetromino.rs, `Shape::squares`).  The Rust match is over
`(self, rotation % 4)`; the final catch-all corresponds to the
`unreachable!()` arm (`rotation % 4` is always `0..=3`). -/
def squares (s : Shape) (rotation : Nat) : List (Int × Int) :=
  match s, rotation % 4 with
  | Shape.I, 0 | Shape.I, 2 => [(0, 2), (1, 2), (2, 2), (3, 2)]
  | Shape.I, 1 | Shape.I, 3 => [(2, 0), (2, 1), (2, 2), (2, 3)]
  | Shape.O, _ => [(1, 1), (2, 1), (1, 2), (2, 2)]
  | Shape.J, 0 => [(1, 1), (2, 1), (3, 1), (3, 2)]
  | Shape.J, 1 => [(2, 0), (2, 1), (1, 2), (2, 2)]
  | Shape.J, 2 => [(1, 0), (1, 1), (2, 1), (3, 1)]
  | Shape.J, 3 => [(2, 0), (3, 0), (2, 1), (2, 2)]
  | Shape.L, 0 => [(1, 1), (2, 1), (3, 1), (1, 2)]
  | Shape.L, 1 => [(1, 0), (2, 0), (2, 1), (2, 2)]
  | Shape.L, 2 => [(3, 0), (1, 1), (2, 1), (3, 1)]
  | Shape.L, 3 => [(2, 0), (2, 1), (2, 2), (3, 2)]
  | Shape.S, 0 | Shape.S, 2 => [(2, 1), (3, 1), (1, 2), (2, 2)]
  | Shape.S, 1 | Shape.S, 3 => [(2, 0), (2, 1), (3, 1), (3, 2)]
  | Shape.Z, 0 | Shape.Z, 2 => [(1, 1), (2, 1), (2, 2), (3, 2)]
  | Shape.Z, 1 | Shape.Z, 3 => [(3, 0), (2, 1), (3, 1), (2, 2)]
  | Shape.T, 0 => [(1, 1), (2, 1), (3, 1), (2, 2)]
  | Shape.T, 1 => [(2, 0), (1, 1), (2, 1), (2, 2)]
  | Shape.T, 2 => [(2, 0), (1, 1), (2, 1), (3, 1)]
  | Shape.T, 3 => [(2, 0), (2, 1), (3, 1), (2, 2)]
  | _, _ => []

end Shape

/-- Tetromino in space, including rotation and position
(src/tetromino.rs, `struct Tetromino`).  `rotation` is a Rust `u8`
(wrapping arithmetic modulo 256), modelled as a `Nat` kept in `[0, 256)`
by the operations below. -/
structure Tetromino where
  position : Int × Int
  rotation : Nat
  shape : Shape
deriving DecidableEq, Repr

namespace Tetromino

/-- Creates a new tetromino with a given shape positioned at origin (3, -1)
(src/tetromino.rs, `Tetromino::new_at_origin`). -/
def new_at_origin (shape : Shape) : Tetromino :=
  { position := (3, -1), rotation := 0, shape := shape }

/-- Positions of the squares representing this tetromino: shape offsets
shifted by the tetromino position (src/tetromino.rs, `Tetromino::squares`). -/
def squares (t : Tetromino) : List (Int × Int) :=
  (t.shape.squares t.rotation).map fun s =>
    (s.1 + t.position.1, s.2 + t.position.2)

/-- A new rotated instance of this tetromino (src/tetromino.rs,
`Tetromino::rotated`).  The Rust code is
`rotation.wrapping_add_signed(by)` on a `u8`: addition modulo 256. -/
def rotated (t : Tetromino) (d : Int) : Tetromino :=
  { t with rotation := (((t.rotation : Int) + d) % 256).toNat }

/-- A new instance of this tetromino moved by `d`
(src/tetromino.rs, `Tetromino::moved`). -/
def moved (t : Tetromino) (d : Int × Int) : Tetromino :=
  { t with position := (t.position.1 + d.1, t.position.2 + d.2) }

end Tetromino

/-- Generic 2D grid with row-major storage (src/grid.rs, `struct Grid`). -/
structure Grid (α : Type) where
  raw : List α
  width : Nat
  height : Nat
deriving DecidableEq, Repr

namespace Grid

/-- A grid of size `width` by `height` filled with copies of `value`
(src/grid.rs, `Grid::filled_with`). -/
def filled_with (value : α) (width height : Nat) : Grid α :=
  { raw := List.replicate (width * height) value, width := width, height := height }

/-- Converts `x` and `y` indices into an index into the underlying buffer
(src/grid.rs, `Grid::index_of`). -/
def index_of (g : Grid α) (x y : Nat) : Nat :=
  y * g.width + x

/-- The value at the specified position; `none` when out of bounds
(src/grid.rs, `Grid::get`). -/
def get (g : Grid α) (x y : Nat) : Option α :=
  if g.height ≤ y ∨ g.width ≤ x then none
  else g.raw[g.index_of x y]?

/-- Sets the value at the specified position; the Rust function panics when
`x` or `y` is out of bounds, modelled by returning `none`
(src/grid.rs, `Grid::set`). -/
def set (g : Grid α) (x y : Nat) (value : α) : Option (Grid α) :=
  if g.height ≤ y ∨ g.width ≤ x then none
  else some { g with raw := g.raw.set (g.index_of x y) value }

/-- `Grid::set` at an index that is statically in range: used to embed the
loops of `Board::clear_complete`, whose every write has `x < width` and
`y ≤ row < height`, so the fallback branch never occurs there. -/
def setD (g : Grid α) (x y : Nat) (value : α) : Grid α :=
  match g.set x y value with
  | some g' => g'
  | none => g

/-- Well-formedness of the row-major buffer: its length matches the
dimensions.  Every grid built by `filled_with` satisfies it and every
`set` preserves it. -/
def WF (g : Grid α) : Prop :=
  g.raw.length = g.width * g.height

end Grid

/-- The contents of one board cell, as read through `Grid::get` followed by
the dereference of the returned reference: `none` when the position is out
of bounds or the cell is empty, `some k` when it holds a settled square of
shape `k`. -/
def cellAt (g : Grid (Option Shape)) (x y : Nat) : Option Shape :=
  (g.get x y).join

/-- The game board (src/board.rs, `struct Board`). -/
structure Board where
  grid : Grid (Option Shape)
deriving DecidableEq, Repr

namespace Board

def WIDTH : Nat := 10
def HEIGHT : Nat := 20

/-- A new empty board (src/board.rs, `Board::empty`). -/
def empty : Board :=
  ⟨Grid.filled_with none WIDTH HEIGHT⟩

/-- Well-formed board: the dimensions are the `Board` constants and the
buffer has matching length, as holds for every board the program builds. -/
def WF (b : Board) : Prop :=
  b.grid.WF ∧ b.grid.width = WIDTH ∧ b.grid.height = HEIGHT

/-- Checks whether a tetromino can fit onto the board
(src/board.rs, `Board::can_fit`).  A square with `y < 0` and
`0 <= x < WIDTH` is allowed to stick out the top; otherwise the cell
looked up at `(x as usize, y as usize)` must exist and be empty
(the Rust `if let None | Some(Some(_)) = value { return false }`). -/
def can_fit (b : Board) (t : Tetromino) : Bool :=
  t.squares.all fun square =>
    if square.2 < 0 ∧ 0 ≤ square.1 ∧ square.1 < (WIDTH : Int) then
      true
    else
      match b.grid.get (usizeOfInt square.1) (usizeOfInt square.2) with
      | some none => true
      | _ => false

/-- Places a tetromino onto the board (src/board.rs, `Board::place`).
Squares with `y < 0` are skipped; each remaining square is written with
`Grid::set` at `(x as usize, y as usize)`, which panics (here: `none`)
when out of bounds. -/
def place (b : Board) (t : Tetromino) : Option Board :=
  (t.squares.foldlM
    (fun (g : Grid (Option Shape)) (square : Int × Int) =>
      if square.2 < 0 then pure g
      else g.set (usizeOfInt square.1) (usizeOfInt square.2) (some t.shape))
    b.grid).map Board.mk

/-- Whether row `y` is complete, i.e. all squares along the width are
filled: the per-row check of `Board::clear_complete`
(`.map(|i| self.grid.get(i, row).unwrap()).all(|sq| sq.is_some())`). -/
def rowComplete (g : Grid (Option Shape)) (y : Nat) : Bool :=
  (List.range g.width).all fun i => (cellAt g i y).isSome

/-- The "Clear row" inner loop of `Board::clear_complete`:
`for x in 0..width { set(x, row, None) }`. -/
def clearRow (g : Grid (Option Shape)) (row : Nat) : Grid (Option Shape) :=
  (List.range g.width).foldl (fun g x => g.setD x row none) g

/-- One iteration of the "Shift above rows down" loop of
`Board::clear_complete` at row `r`:
`for x in 0..width { if r == 0 { set(x, r, None) } else { set(x, r, *get(x, r-1).unwrap()) } }`.
The read of row `r - 1` happens on the current (partially written) grid,
exactly as in the source; only row `r` is being written, so the read row
is untouched. -/
def copyRowDown (g : Grid (Option Shape)) (r : Nat) : Grid (Option Shape) :=
  (List.range g.width).foldl
    (fun g x =>
      if r = 0 then g.setD x r none
      else g.setD x r (cellAt g x (r - 1)))
    g

/-- The "Shift above rows down, clear top row" loop of
`Board::clear_complete`: `for r in (0..=row).rev() { ... }`. -/
def shiftDownFrom (g : Grid (Option Shape)) (row : Nat) : Grid (Option Shape) :=
  (List.range (row + 1)).reverse.foldl (fun g r => copyRowDown g r) g

/-- The body of the outer `for row in 0..height` loop of
`Board::clear_complete`: when the row is complete, clear it, shift the rows
above it down, and count it. -/
def clearStep (st : Grid (Option Shape) × Nat) (row : Nat) :
    Grid (Option Shape) × Nat :=
  if rowComplete st.1 row then
    (shiftDownFrom (clearRow st.1 row) row, st.2 + 1)
  else st

/-- Clears complete rows and shifts above rows down, returning the new board
and the number of cleared rows (src/board.rs, `Board::clear_complete`).
The outer loop runs over `row in 0..height` on the evolving grid. -/
def clear_complete (b : Board) : Board × Nat :=
  let out := (List.range b.grid.height).foldl clearStep (b.grid, 0)
  (⟨out.1⟩, out.2)

end Board

/-- The simulation-relevant state of the game (src/game.rs, `struct Game`,
render fields omitted).  `Shape::random()` is a source of randomness; the
operations that draw a new random shape take it as an explicit argument. -/
structure Game where
  board : Board
  falling_tetromino : Tetromino
  next_shape : Shape
  ticks_elapsed : Nat
  score : Nat
  level : Nat
  rows_cleared : Nat
deriving DecidableEq, Repr

namespace Game

/-- Moves the falling tetromino if possible, returning the new state and
whether the move happened (src/game.rs, `Game::try_move`).  A successful
downward move (`by.y > 0`) resets the tick counter. -/
def try_move (g : Game) (d : Int × Int) : Game × Bool :=
  let moved := g.falling_tetromino.moved d
  if g.board.can_fit moved then
    ({ g with
        falling_tetromino := moved,
        ticks_elapsed := if 0 < d.2 then 0 else g.ticks_elapsed },
      true)
  else
    (g, false)

/-- Rotates the falling tetromino if possible (src/game.rs, `Game::try_rotate`). -/
def try_rotate (g : Game) (d : Int) : Game :=
  let rotated := g.falling_tetromino.rotated d
  if g.board.can_fit rotated then
    { g with falling_tetromino := rotated }
  else g

/-- Calculates the score for a given number of cleared rows
(src/game.rs, `Game::calc_score`).  The Rust function panics for inputs
above 4; the panic is modelled by `none`. -/
def calc_score (rows_cleared : Nat) : Option Nat :=
  match rows_cleared with
  | 0 => some 0
  | 1 => some 40
  | 2 => some 100
  | 3 => some 300
  | 4 => some 1200
  | _ => none

/-- Places the falling tetromino, clears rows, scores, and spawns the next
piece (src/game.rs, `Game::finalize`).  `rand_next` stands for the
`Shape::random()` draw.  When the freshly spawned piece fails `can_fit`
the Rust code only prints "Game over!" (`// TODO Game over screen.`) and
changes no further state, so that check has no effect here. -/
def finalize (g : Game) (rand_next : Shape) : Option Game :=
  (g.board.place g.falling_tetromino).bind fun b =>
    let cleared := b.clear_complete
    (calc_score cleared.2).map fun pts =>
      { g with
          board := cleared.1,
          rows_cleared := g.rows_cleared + cleared.2,
          score := g.score + pts,
          falling_tetromino := Tetromino.new_at_origin g.next_shape,
          next_shape := rand_next }

/-- Moves the falling tetromino down; if it cannot move down it is placed
(src/game.rs, `Game::fall`). -/
def fall (g : Game) (rand_next : Shape) : Option Game :=
  let r := g.try_move (0, 1)
  if r.2 then some r.1 else r.1.finalize rand_next

/-- Advances the fall timer; at 60 ticks the timer resets and the piece
falls one step (src/game.rs, `Game::tick`). -/
def tick (g : Game) (rand_next : Shape) : Option Game :=
  let g := { g with ticks_elapsed := g.ticks_elapsed + 1 }
  if g.ticks_elapsed = 60 then
    ({ g with ticks_elapsed := 0 }).fall rand_next
  else some g

/-- The `while self.try_move(ivec2(0, 1)) {}` loop of `Game::drop`,
written with explicit fuel; `none` means the fuel ran out before the
loop exited (the termination theorem shows enough fuel always exists). -/
def drop_loop (g : Game) : Nat → Option Game
  | 0 => none
  | fuel + 1 =>
    let r := g.try_move (0, 1)
    if r.2 then drop_loop r.1 fuel else some r.1

/-- Drops the falling tetromino and places it immediately
(src/game.rs, `Game::drop`). -/
def drop (g : Game) (rand_next : Shape) (fuel : Nat) : Option Game :=
  (g.drop_loop fuel).bind fun g' => g'.finalize rand_next

end Game

/-! ### Basic facts about the embedding -/

/-- The coordinates reachable by a Rust `i32`: `-2^31 ≤ v < 2^31`. -/
def inI32 (v : Int) : Prop := -2147483648 ≤ v ∧ v < 2147483648

instance (v : Int) : Decidable (inI32 v) := by unfold inI32; infer_instance

theorem usizeOfInt_of_nonneg {v : Int} (h0 : 0 ≤ v)
    (h : v < 18446744073709551616) : usizeOfInt v = v.toNat := by
  unfold usizeOfInt; omega

theorem usizeOfInt_of_neg {v : Int} (h0 : -2147483648 ≤ v) (h : v < 0) :
    9223372036854775808 ≤ usizeOfInt v := by
  unfold usizeOfInt; omega

/-- Convenient form of `Board.WF`: buffer length 200, width 10, height 20. -/
theorem Board.wf_iff (b : Board) :
    b.WF ↔ b.grid.raw.length = 200 ∧ b.grid.width = 10 ∧ b.grid.height = 20 := by
  unfold Board.WF Grid.WF WIDTH HEIGHT
  constructor
  · rintro ⟨h1, h2, h3⟩
    refine ⟨?_, h2, h3⟩
    rw [h1, h2, h3]
  · rintro ⟨h1, h2, h3⟩
    refine ⟨?_, h2, h3⟩
    rw [h2, h3, h1]

namespace Grid

theorem get_oob {g : Grid α} {x y : Nat} (h : g.height ≤ y ∨ g.width ≤ x) :
    g.get x y = none := by
  unfold get; rw [if_pos h]

theorem get_in {g : Grid α} {x y : Nat}
    (hl : g.raw.length = 200) (hw : g.width = 10) (hh : g.height = 20)
    (hx : x < 10) (hy : y < 20) :
    g.get x y = some (g.raw.get ⟨y * 10 + x, by omega⟩) := by
  unfold get index_of
  rw [if_neg (by omega), hw, List.getElem?_eq_getElem (by omega)]
  simp [List.get_eq_getElem]

/-- Pointwise description of `setD` on board-shaped grids. -/
theorem cellAt_setD {g : Grid (Option Shape)} {x y : Nat}
    (hl : g.raw.length = 200) (hw : g.width = 10) (hh : g.height = 20)
    (hx : x < 10) (hy : y < 20) (v : Option Shape) {x' y' : Nat}
    (hx' : x' < 10) (hy' : y' < 20) :
    cellAt (g.setD x y v) x' y' =
      if x' = x ∧ y' = y then v else cellAt g x' y' := by
  unfold setD set index_of
  rw [if_neg (by omega)]
  unfold cellAt
  rw [get_in (by simp [hl]) (by simpa using hw) (by simpa using hh) hx' hy',
    get_in hl hw hh hx' hy']
  simp only [List.get_eq_getElem, Option.join]
  have hidx : y * g.width + x = y * 10 + x := by rw [hw]
  rw [hidx]
  by_cases hcase : x' = x ∧ y' = y
  · obtain ⟨rfl, rfl⟩ := hcase
    rw [if_pos ⟨rfl, rfl⟩,
      List.getElem_set_self (by simp only [List.length_set]; omega)]
    rfl
  · rw [if_neg hcase]
    have hne : y * 10 + x ≠ y' * 10 + x' := by omega
    rw [List.getElem_set_ne hne]

theorem setD_raw_length {g : Grid (Option Shape)} {x y : Nat} {v : Option Shape} :
    (g.setD x y v).raw.length = g.raw.length := by
  unfold setD set
  split
  next g' h =>
    split at h
    · exact absurd h (by simp)
    · cases h; simp
  next => rfl

theorem setD_width {g : Grid (Option Shape)} {x y : Nat} {v : Option Shape} :
    (g.setD x y v).width = g.width := by
  unfold setD set
  split
  next g' h =>
    split at h
    · exact absurd h (by simp)
    · cases h; simp
  next => rfl

theorem setD_height {g : Grid (Option Shape)} {x y : Nat} {v : Option Shape} :
    (g.setD x y v).height = g.height := by
  unfold setD set
  split
  next g' h =>
    split at h
    · exact absurd h (by simp)
    · cases h; simp
  next => rfl

end Grid

/-- Helper: the occupancy pattern match of `can_fit` holds exactly when the
lookup returned an existing empty cell. -/
theorem matchFit_iff (o : Option (Option Shape)) :
    (match o with | some none => true | _ => false) = true ↔ o = some none := by
  rcases o with _ | c
  · simp
  · rcases c with _ | k <;> simp

/-- Helper: an in-bounds lookup on a well-formed board grid returns the cell. -/
theorem Grid.get_cellAt {g : Grid (Option Shape)} {x y : Nat}
    (hl : g.raw.length = 200) (hw : g.width = 10) (hh : g.height = 20)
    (hx : x < 10) (hy : y < 20) :
    g.get x y = some (cellAt g x y) := by
  rw [Grid.get_in hl hw hh hx hy]
  unfold cellAt
  rw [Grid.get_in hl hw hh hx hy]
  rfl

/-- Helper: pointwise characterisation of one square's check in `can_fit`. -/
theorem can_fit_square (b : Board)
    (hl : b.grid.raw.length = 200) (hw : b.grid.width = 10) (hh : b.grid.height = 20)
    (s : Int × Int) (h1 : inI32 s.1) (h2 : inI32 s.2) :
    (if s.2 < 0 ∧ 0 ≤ s.1 ∧ s.1 < ((Board.WIDTH : Nat) : Int) then true
     else
       match b.grid.get (usizeOfInt s.1) (usizeOfInt s.2) with
       | some none => true
       | _ => false) = true ↔
      (s.2 < 0 ∧ 0 ≤ s.1 ∧ s.1 < 10) ∨
      (0 ≤ s.1 ∧ s.1 < 10 ∧ 0 ≤ s.2 ∧ s.2 < 20 ∧
        cellAt b.grid s.1.toNat s.2.toNat = none) := by
  have hWcast : ((Board.WIDTH : Nat) : Int) = 10 := by norm_num [Board.WIDTH]
  obtain ⟨h1a, h1b⟩ := h1
  obtain ⟨h2a, h2b⟩ := h2
  rw [hWcast]
  by_cases hg : s.2 < 0 ∧ 0 ≤ s.1 ∧ s.1 < (10 : Int)
  · rw [if_pos hg]
    exact iff_of_true rfl (Or.inl hg)
  · rw [if_neg hg, matchFit_iff]
    by_cases hy0 : s.2 < 0
    · -- y < 0 but x outside [0, 10): the usize-cast y is astronomically large
      have hxbad : ¬(0 ≤ s.1 ∧ s.1 < 10) := fun hx => hg ⟨hy0, hx.1, hx.2⟩
      have hyget : b.grid.get (usizeOfInt s.1) (usizeOfInt s.2) = none := by
        apply Grid.get_oob
        left
        have := usizeOfInt_of_neg h2a hy0
        omega
      rw [hyget]
      refine iff_of_false (by simp) ?_
      rintro (⟨_, hb, hc⟩ | ⟨_, _, hy2, _, _⟩)
      · exact hxbad ⟨hb, hc⟩
      · omega
    · push_neg at hy0
      by_cases hy20 : s.2 < 20
      · by_cases hx0 : 0 ≤ s.1
        · by_cases hx10 : s.1 < 10
          · -- fully in bounds: the grid cell decides
            rw [usizeOfInt_of_nonneg hx0 (by omega),
              usizeOfInt_of_nonneg hy0 (by omega),
              Grid.get_cellAt hl hw hh (by omega) (by omega), Option.some_inj]
            constructor
            · intro hcell
              exact Or.inr ⟨hx0, hx10, hy0, hy20, hcell⟩
            · rintro (⟨hy, _⟩ | ⟨_, _, _, _, hcell⟩)
              · omega
              · exact hcell
          · push_neg at hx10
            have hget : b.grid.get (usizeOfInt s.1) (usizeOfInt s.2) = none := by
              apply Grid.get_oob
              right
              have := usizeOfInt_of_nonneg hx0 (h := by omega)
              omega
            rw [hget]
            refine iff_of_false (by simp) ?_
            rintro (⟨hy, _⟩ | ⟨_, hb, _⟩)
            · omega
            · omega
        · push_neg at hx0
          have hget : b.grid.get (usizeOfInt s.1) (usizeOfInt s.2) = none := by
            apply Grid.get_oob
            right
            have := usizeOfInt_of_neg h1a hx0
            omega
          rw [hget]
          refine iff_of_false (by simp) ?_
          rintro (⟨hy, hb, _⟩ | ⟨hb, _⟩)
          · omega
          · omega
      · push_neg at hy20
        have hget : b.grid.get (usizeOfInt s.1) (usizeOfInt s.2) = none := by
          apply Grid.get_oob
          left
          have := usizeOfInt_of_nonneg hy0 (h := by omega)
          omega
        rw [hget]
        refine iff_of_false (by simp) ?_
        rintro (⟨hy, _⟩ | ⟨_, _, _, hd, _⟩)
        · omega
        · omega

/-- Helper: full characterisation of `Board.can_fit` for a well-formed board
and `i32`-representable square coordinates. -/
theorem can_fit_iff (b : Board) (t : Tetromino) (hWF : b.WF)
    (hrange : ∀ s ∈ t.squares, inI32 s.1 ∧ inI32 s.2) :
    b.can_fit t = true ↔
      ∀ s ∈ t.squares,
        (s.2 < 0 ∧ 0 ≤ s.1 ∧ s.1 < 10) ∨
        (0 ≤ s.1 ∧ s.1 < 10 ∧ 0 ≤ s.2 ∧ s.2 < 20 ∧
          cellAt b.grid s.1.toNat s.2.toNat = none) := by
  obtain ⟨hl, hw, hh⟩ := (Board.wf_iff b).mp hWF
  unfold Board.can_fit
  rw [List.all_eq_true]
  constructor
  · intro h s hs
    exact (can_fit_square b hl hw hh s (hrange s hs).1 (hrange s hs).2).mp (h s hs)
  · intro h s hs
    exact (can_fit_square b hl hw hh s (hrange s hs).1 (hrange s hs).2).mpr (h s hs)

/-- Helper: the square table only depends on the rotation modulo 4. -/
theorem Shape.squares_mod (s : Shape) (r : Nat) : s.squares r = s.squares (r % 4) := by
  have h : r % 4 % 4 = r % 4 := Nat.mod_mod_of_dvd r dvd_rfl
  rw [Shape.squares.eq_def, Shape.squares.eq_def, h]

/-- Helper: two tetrominoes with the same shape, position and rotation
modulo 4 occupy the same squares. -/
theorem Tetromino.squares_congr (t t' : Tetromino) (hs : t'.shape = t.shape)
    (hp : t'.position = t.position) (hr : t'.rotation % 4 = t.rotation % 4) :
    t'.squares = t.squares := by
  unfold Tetromino.squares
  rw [hs, hp, Shape.squares_mod t.shape t'.rotation, hr,
    ← Shape.squares_mod t.shape t.rotation]

/-- C6: rotation is periodic with period 4: four successive `rotated 1`
calls restore the occupied squares of any piece, and any two rotation
deltas congruent mod 4 — including wrapped values such as `-1` versus `3`
— yield identical occupied squares. -/
theorem rotated_period (t : Tetromino) (d₁ d₂ : Int) (h : (d₁ - d₂) % 4 = 0) :
    ((((t.rotated 1).rotated 1).rotated 1).rotated 1).squares = t.squares ∧
    (t.rotated d₁).squares = (t.rotated d₂).squares := by
  constructor
  · refine Tetromino.squares_congr t _ ?_ ?_ ?_
    · simp only [Tetromino.rotated]
    · simp only [Tetromino.rotated]
    · simp only [Tetromino.rotated]
      omega
  · refine Tetromino.squares_congr (t.rotated d₂) (t.rotated d₁) ?_ ?_ ?_
    · simp only [Tetromino.rotated]
    · simp only [Tetromino.rotated]
    · simp only [Tetromino.rotated]
      omega

/-- Witness for C6 at a concrete piece: a wrapped `-1` rotation from
rotation 0 equals rotation 3. -/
theorem rotated_period_witness :
    (((((Tetromino.new_at_origin Shape.J).rotated 1).rotated 1).rotated 1).rotated
        1).squares = (Tetromino.new_at_origin Shape.J).squares ∧
    ((Tetromino.new_at_origin Shape.J).rotated (-1)).squares =
      ((Tetromino.new_at_origin Shape.J).rotated 3).squares :=
  rotated_period (Tetromino.new_at_origin Shape.J) (-1) 3 (by decide)

/-- C5: the scoring table maps 0,1,2,3,4 to 0,40,100,300,1200 and fails
loudly (modelled as `none`, the Rust panic) on anything above 4. -/
theorem calc_score_spec (n : Nat) (h : 4 < n) :
    Game.calc_score 0 = some 0 ∧ Game.calc_score 1 = some 40 ∧
    Game.calc_score 2 = some 100 ∧ Game.calc_score 3 = some 300 ∧
    Game.calc_score 4 = some 1200 ∧ Game.calc_score n = none := by
  refine ⟨rfl, rfl, rfl, rfl, rfl, ?_⟩
  obtain ⟨m, rfl⟩ : ∃ m, n = m + 5 := ⟨n - 5, by omega⟩
  rfl

/-- Witness for C5 at the concrete out-of-range input 5. -/
theorem calc_score_spec_witness :
    Game.calc_score 0 = some 0 ∧ Game.calc_score 1 = some 40 ∧
    Game.calc_score 2 = some 100 ∧ Game.calc_score 3 = some 300 ∧
    Game.calc_score 4 = some 1200 ∧ Game.calc_score 5 = none :=
  calc_score_spec 5 (by decide)

/-- C1: `can_fit` is a pure query (in this embedding it does not touch the
board at all) and returns `true` exactly when each of the piece's 4 squares
is either above the board with `0 <= x < WIDTH`, or in bounds on an empty
cell. -/
theorem can_fit_spec (b : Board) (t : Tetromino) (hWF : b.WF)
    (hrange : ∀ s ∈ t.squares, inI32 s.1 ∧ inI32 s.2) :
    b.can_fit t = true ↔
      ∀ s ∈ t.squares,
        (s.2 < 0 ∧ 0 ≤ s.1 ∧ s.1 < 10) ∨
        (0 ≤ s.1 ∧ s.1 < 10 ∧ 0 ≤ s.2 ∧ s.2 < 20 ∧
          cellAt b.grid s.1.toNat s.2.toNat = none) :=
  can_fit_iff b t hWF hrange

/-- Helper: the empty board is well formed. -/
theorem Board.empty_WF : Board.empty.WF := by
  rw [Board.wf_iff]
  refine ⟨?_, rfl, rfl⟩
  show (List.replicate (Board.WIDTH * Board.HEIGHT) (none : Option Shape)).length = 200
  rw [List.length_replicate]
  rfl

/-- Witness for C1 on the empty board and a freshly spawned O piece. -/
theorem can_fit_spec_witness :
    Board.empty.can_fit (Tetromino.new_at_origin Shape.O) = true ↔
      ∀ s ∈ (Tetromino.new_at_origin Shape.O).squares,
        (s.2 < 0 ∧ 0 ≤ s.1 ∧ s.1 < 10) ∨
        (0 ≤ s.1 ∧ s.1 < 10 ∧ 0 ≤ s.2 ∧ s.2 < 20 ∧
          cellAt Board.empty.grid s.1.toNat s.2.toNat = none) :=
  can_fit_spec Board.empty (Tetromino.new_at_origin Shape.O) Board.empty_WF
    (by decide)

/-- C7: a failed move changes nothing; a successful downward move replaces
the piece and resets the fall timer; a successful purely horizontal move
replaces the piece but leaves the fall timer unchanged. -/
theorem try_move_spec (g : Game) (d : Int × Int) :
    (g.board.can_fit (g.falling_tetromino.moved d) = false →
        g.try_move d = (g, false)) ∧
    (g.board.can_fit (g.falling_tetromino.moved d) = true → 0 < d.2 →
        g.try_move d =
          ({ g with falling_tetromino := g.falling_tetromino.moved d,
                    ticks_elapsed := 0 }, true)) ∧
    (g.board.can_fit (g.falling_tetromino.moved d) = true → d.2 = 0 →
        g.try_move d =
          ({ g with falling_tetromino := g.falling_tetromino.moved d }, true)) := by
  refine ⟨?_, ?_, ?_⟩
  · intro hfit
    simp only [Game.try_move, hfit]
    simp
  · intro hfit hd
    simp only [Game.try_move, hfit]
    simp [hd]
  · intro hfit hd
    simp only [Game.try_move, hfit]
    simp [hd]

/-- A concrete mid-game state used by the witnesses. -/
def demoGame : Game :=
  { board := Board.empty,
    falling_tetromino := Tetromino.new_at_origin Shape.O,
    next_shape := Shape.T,
    ticks_elapsed := 7,
    score := 0,
    level := 0,
    rows_cleared := 0 }

/-- Witness for C7: a concrete successful soft drop resets the timer. -/
theorem try_move_spec_witness :
    demoGame.try_move (0, 1) =
      ({ demoGame with
          falling_tetromino := demoGame.falling_tetromino.moved (0, 1),
          ticks_elapsed := 0 }, true) :=
  (try_move_spec demoGame (0, 1)).2.1 (by decide) (by decide)

/-- Helper: an in-range `Grid::set` succeeds and equals `setD`. -/
theorem Grid.set_eq_setD {g : Grid α} {x y : Nat} (hx : x < g.width)
    (hy : y < g.height) (v : α) : g.set x y v = some (g.setD x y v) := by
  unfold Grid.setD Grid.set
  rw [if_neg (by omega)]

/-- Helper: the write loop of `Board::place` over any list of squares that
are each either above the board or fully in bounds. -/
theorem place_go (shp : Shape) (ss : List (Int × Int)) :
    ∀ (g : Grid (Option Shape)),
      g.raw.length = 200 → g.width = 10 → g.height = 20 →
      (∀ s ∈ ss, inI32 s.1 ∧ inI32 s.2) →
      (∀ s ∈ ss, s.2 < 0 ∨ (0 ≤ s.1 ∧ s.1 < 10 ∧ 0 ≤ s.2 ∧ s.2 < 20)) →
      ∃ g',
        (ss.foldlM
          (fun (g : Grid (Option Shape)) (square : Int × Int) =>
            if square.2 < 0 then pure g
            else g.set (usizeOfInt square.1) (usizeOfInt square.2) (some shp))
          g) = some g' ∧
        g'.raw.length = 200 ∧ g'.width = 10 ∧ g'.height = 20 ∧
        ∀ x', x' < 10 → ∀ y', y' < 20 →
          cellAt g' x' y' =
            if ∃ s ∈ ss, 0 ≤ s.2 ∧ s.1.toNat = x' ∧ s.2.toNat = y'
            then some shp else cellAt g x' y' := by
  induction ss with
  | nil =>
    intro g hl hw hh _ _
    refine ⟨g, rfl, hl, hw, hh, ?_⟩
    intro x' hx' y' hy'
    rw [if_neg (by simp)]
  | cons s ss ih =>
    intro g hl hw hh hr hb
    have hrs := hr s (List.mem_cons_self s ss)
    have hrtail : ∀ s' ∈ ss, inI32 s'.1 ∧ inI32 s'.2 :=
      fun s' hs' => hr s' (List.mem_cons_of_mem s hs')
    have hbtail : ∀ s' ∈ ss, s'.2 < 0 ∨ (0 ≤ s'.1 ∧ s'.1 < 10 ∧ 0 ≤ s'.2 ∧ s'.2 < 20) :=
      fun s' hs' => hb s' (List.mem_cons_of_mem s hs')
    rcases hb s (List.mem_cons_self s ss) with hneg | ⟨hx0, hx10, hy0, hy20⟩
    · -- square above the board: skipped by the loop
      obtain ⟨g', heq, hl', hw', hh', hcell⟩ := ih g hl hw hh hrtail hbtail
      refine ⟨g', ?_, hl', hw', hh', ?_⟩
      · simp only [List.foldlM_cons]
        rw [if_pos hneg]
        simpa using heq
      · intro x' hx' y' hy'
        rw [hcell x' hx' y' hy']
        have hiff : (∃ s' ∈ s :: ss, 0 ≤ s'.2 ∧ s'.1.toNat = x' ∧ s'.2.toNat = y') ↔
            (∃ s' ∈ ss, 0 ≤ s'.2 ∧ s'.1.toNat = x' ∧ s'.2.toNat = y') := by
          rw [List.exists_mem_cons_iff]
          constructor
          · rintro (⟨hy, _⟩ | h)
            · omega
            · exact h
          · exact Or.inr
        rw [if_congr hiff rfl rfl]
    · -- square in bounds: written by the loop
      have hux : usizeOfInt s.1 = s.1.toNat :=
        usizeOfInt_of_nonneg hx0 (by obtain ⟨⟨_, h⟩, _⟩ := hrs; omega)
      have huy : usizeOfInt s.2 = s.2.toNat :=
        usizeOfInt_of_nonneg hy0 (by obtain ⟨_, ⟨_, h⟩⟩ := hrs; omega)
      have hset : g.set (usizeOfInt s.1) (usizeOfInt s.2) (some shp) =
          some (g.setD (usizeOfInt s.1) (usizeOfInt s.2) (some shp)) :=
        Grid.set_eq_setD (by rw [hux, hw]; omega) (by rw [huy, hh]; omega) _
      set g2 := g.setD (usizeOfInt s.1) (usizeOfInt s.2) (some shp) with hg2
      obtain ⟨g', heq, hl', hw', hh', hcell⟩ :=
        ih g2 (by rw [hg2, Grid.setD_raw_length]; exact hl)
          (by rw [hg2, Grid.setD_width]; exact hw)
          (by rw [hg2, Grid.setD_height]; exact hh) hrtail hbtail
      refine ⟨g', ?_, hl', hw', hh', ?_⟩
      · simp only [List.foldlM_cons]
        rw [if_neg (by omega), hset]
        simpa using heq
      · intro x' hx' y' hy'
        rw [hcell x' hx' y' hy']
        have hg2cell : cellAt g2 x' y' =
            if x' = s.1.toNat ∧ y' = s.2.toNat then some shp else cellAt g x' y' := by
          rw [hg2, hux, huy]
          exact Grid.cellAt_setD hl hw hh (by omega) (by omega) _ hx' hy'
        by_cases hctail : ∃ s' ∈ ss, 0 ≤ s'.2 ∧ s'.1.toNat = x' ∧ s'.2.toNat = y'
        · rw [if_pos hctail, if_pos ?_]
          obtain ⟨s', hs', h'⟩ := hctail
          exact ⟨s', List.mem_cons_of_mem s hs', h'⟩
        · rw [if_neg hctail, hg2cell]
          by_cases hch : x' = s.1.toNat ∧ y' = s.2.toNat
          · rw [if_pos hch, if_pos ?_]
            exact ⟨s, List.mem_cons_self s ss, hy0, hch.1.symm, hch.2.symm⟩
          · rw [if_neg hch, if_neg ?_]
            rintro ⟨s', hs', hy', hxeq, hyeq⟩
            rcases List.mem_cons.mp hs' with rfl | hs'
            · exact hch ⟨hxeq.symm, hyeq.symm⟩
            · exact hctail ⟨s', hs', hy', hxeq, hyeq⟩

/-- C4: placing a piece that `can_fit` approved never panics; it writes the
piece's kind into exactly the squares with `y >= 0` (squares with `y < 0`
are silently dropped) and leaves every other cell unchanged. -/
theorem place_spec (b : Board) (t : Tetromino) (hWF : b.WF)
    (hrange : ∀ s ∈ t.squares, inI32 s.1 ∧ inI32 s.2)
    (hfit : b.can_fit t = true) :
    ∃ b', b.place t = some b' ∧ b'.WF ∧
      ∀ x, x < 10 → ∀ y, y < 20 →
        cellAt b'.grid x y =
          if ∃ s ∈ t.squares, 0 ≤ s.2 ∧ s.1.toNat = x ∧ s.2.toNat = y
          then some t.shape else cellAt b.grid x y := by
  obtain ⟨hl, hw, hh⟩ := (Board.wf_iff b).mp hWF
  have hb : ∀ s ∈ t.squares, s.2 < 0 ∨ (0 ≤ s.1 ∧ s.1 < 10 ∧ 0 ≤ s.2 ∧ s.2 < 20) := by
    intro s hs
    rcases (can_fit_iff b t hWF hrange).mp hfit s hs with ⟨h, _⟩ | ⟨h1, h2, h3, h4, _⟩
    · exact Or.inl h
    · exact Or.inr ⟨h1, h2, h3, h4⟩
  obtain ⟨g', heq, hl', hw', hh', hcell⟩ :=
    place_go t.shape t.squares b.grid hl hw hh hrange hb
  refine ⟨⟨g'⟩, ?_, (Board.wf_iff _).mpr ⟨hl', hw', hh'⟩, ?_⟩
  · unfold Board.place
    rw [heq]
    rfl
  · intro x hx y hy
    exact hcell x hx y hy

/-- Witness for C4: placing a freshly spawned O piece on the empty board
does not panic. -/
theorem place_spec_witness :
    (Board.empty.place (Tetromino.new_at_origin Shape.O)).isSome = true := by
  obtain ⟨b', heq, _, _⟩ :=
    place_spec Board.empty (Tetromino.new_at_origin Shape.O) Board.empty_WF
      (by decide) (by decide)
  rw [heq]
  rfl

/-- Helper: the dimension facts carried through the row-clearing proofs. -/
def GWF (g : Grid (Option Shape)) : Prop :=
  g.raw.length = 200 ∧ g.width = 10 ∧ g.height = 20

theorem GWF.setD {g : Grid (Option Shape)} (hg : GWF g) (x y : Nat)
    (v : Option Shape) : GWF (g.setD x y v) := by
  obtain ⟨hl, hw, hh⟩ := hg
  exact ⟨by rw [Grid.setD_raw_length, hl], by rw [Grid.setD_width, hw],
    by rw [Grid.setD_height, hh]⟩

/-- Helper: congruence for `List.all` under pointwise equal predicates. -/
theorem all_congr_mem {l : List α} {p q : α → Bool} (h : ∀ a ∈ l, p a = q a) :
    l.all p = l.all q := by
  induction l with
  | nil => rfl
  | cons a l ih =>
    simp only [List.all_cons, h a (List.mem_cons_self a l),
      ih fun b hb => h b (List.mem_cons_of_mem a hb)]

/-- Helper: `rowComplete` only looks at the cells of the given row. -/
theorem rowComplete_eq {g g' : Grid (Option Shape)}
    (hw : g.width = 10) (hw' : g'.width = 10) (y y' : Nat)
    (h : ∀ x, x < 10 → cellAt g' x y' = cellAt g x y) :
    Board.rowComplete g' y' = Board.rowComplete g y := by
  unfold Board.rowComplete
  rw [hw, hw']
  exact all_congr_mem fun x hx => by rw [h x (List.mem_range.mp hx)]

/-- Helper: the "Clear row" loop of `clear_complete` over any list of
in-range column indices. -/
theorem clearRow_go (row : Nat) (hrow : row < 20) (xs : List Nat) :
    ∀ (g : Grid (Option Shape)), GWF g → (∀ x ∈ xs, x < 10) →
      GWF (xs.foldl (fun g x => g.setD x row (none : Option Shape)) g) ∧
      ∀ x' y', x' < 10 → y' < 20 →
        cellAt (xs.foldl (fun g x => g.setD x row (none : Option Shape)) g) x' y' =
          if x' ∈ xs ∧ y' = row then none else cellAt g x' y' := by
  induction xs with
  | nil =>
    intro g hg _
    refine ⟨hg, ?_⟩
    intro x' y' hx' hy'
    rw [if_neg (by simp)]
    rfl
  | cons x xs ih =>
    intro g hg hxs
    have hx : x < 10 := hxs x (List.mem_cons_self x xs)
    have hxs' : ∀ a ∈ xs, a < 10 := fun a ha => hxs a (List.mem_cons_of_mem x ha)
    obtain ⟨hg', hcell⟩ := ih (g.setD x row none) (hg.setD x row none) hxs'
    refine ⟨hg', ?_⟩
    intro x' y' hx' hy'
    rw [List.foldl_cons, hcell x' y' hx' hy']
    obtain ⟨hl, hw, hh⟩ := hg
    by_cases hc1 : x' ∈ xs ∧ y' = row
    · rw [if_pos hc1, if_pos ⟨List.mem_cons_of_mem x hc1.1, hc1.2⟩]
    · rw [if_neg hc1,
        Grid.cellAt_setD hl hw hh hx hrow none hx' hy']
      by_cases hc2 : x' = x ∧ y' = row
      · rw [if_pos hc2, if_pos ⟨by rw [hc2.1]; exact List.mem_cons_self x xs, hc2.2⟩]
      · rw [if_neg hc2, if_neg ?_]
        rintro ⟨hmem, rfl⟩
        rcases List.mem_cons.mp hmem with rfl | hmem'
        · exact hc2 ⟨rfl, rfl⟩
        · exact hc1 ⟨hmem', rfl⟩

/-- Helper: pointwise description of the "Clear row" loop. -/
theorem clearRow_cell {g : Grid (Option Shape)} (hg : GWF g) (row : Nat)
    (hrow : row < 20) :
    GWF (Board.clearRow g row) ∧
    ∀ x' y', x' < 10 → y' < 20 →
      cellAt (Board.clearRow g row) x' y' =
        if y' = row then none else cellAt g x' y' := by
  unfold Board.clearRow
  rw [hg.2.1]
  obtain ⟨hgwf, hcell⟩ := clearRow_go row hrow (List.range 10) g hg
    (fun x hx => List.mem_range.mp hx)
  refine ⟨hgwf, ?_⟩
  intro x' y' hx' hy'
  rw [hcell x' y' hx' hy']
  by_cases hc : y' = row
  · rw [if_pos ⟨List.mem_range.mpr hx', hc⟩, if_pos hc]
  · rw [if_neg (by tauto), if_neg hc]

/-- Helper: the shift loop body for a row `r >= 1` over any list of
in-range column indices: row `r` receives the current contents of row
`r - 1`, everything else is untouched. -/
theorem copyRowDown_go (r : Nat) (hr : r < 20) (hr0 : r ≠ 0) (xs : List Nat) :
    ∀ (g : Grid (Option Shape)), GWF g → (∀ x ∈ xs, x < 10) →
      GWF (xs.foldl (fun g x => g.setD x r (cellAt g x (r - 1))) g) ∧
      ∀ x' y', x' < 10 → y' < 20 →
        cellAt (xs.foldl (fun g x => g.setD x r (cellAt g x (r - 1))) g) x' y' =
          if x' ∈ xs ∧ y' = r then cellAt g x' (r - 1) else cellAt g x' y' := by
  induction xs with
  | nil =>
    intro g hg _
    refine ⟨hg, ?_⟩
    intro x' y' hx' hy'
    rw [if_neg (by simp)]
    rfl
  | cons x xs ih =>
    intro g hg hxs
    have hx : x < 10 := hxs x (List.mem_cons_self x xs)
    have hxs' : ∀ a ∈ xs, a < 10 := fun a ha => hxs a (List.mem_cons_of_mem x ha)
    set g2 := g.setD x r (cellAt g x (r - 1)) with hg2
    obtain ⟨hg2wf, hcell⟩ := ih g2 (hg.setD x r (cellAt g x (r - 1))) hxs'
    obtain ⟨hl, hw, hh⟩ := hg
    have hg2at : ∀ x' y', x' < 10 → y' < 20 →
        cellAt g2 x' y' =
          if x' = x ∧ y' = r then cellAt g x (r - 1) else cellAt g x' y' :=
      fun x' y' hx' hy' =>
        Grid.cellAt_setD hl hw hh hx hr (cellAt g x (r - 1)) hx' hy'
    refine ⟨hg2wf, ?_⟩
    intro x' y' hx' hy'
    rw [List.foldl_cons, hcell x' y' hx' hy']
    by_cases hc1 : x' ∈ xs ∧ y' = r
    · rw [if_pos hc1, if_pos ⟨List.mem_cons_of_mem x hc1.1, hc1.2⟩,
        hg2at x' (r - 1) hx' (by omega)]
      rw [if_neg (by omega)]
    · rw [if_neg hc1, hg2at x' y' hx' hy']
      by_cases hc2 : x' = x ∧ y' = r
      · rw [if_pos hc2,
          if_pos ⟨by rw [hc2.1]; exact List.mem_cons_self x xs, hc2.2⟩, hc2.1]
      · rw [if_neg hc2, if_neg ?_]
        rintro ⟨hmem, rfl⟩
        rcases List.mem_cons.mp hmem with rfl | hmem'
        · exact hc2 ⟨rfl, rfl⟩
        · exact hc1 ⟨hmem', rfl⟩

/-- Helper: pointwise description of one shift iteration at row `r`. -/
theorem copyRowDown_cell {g : Grid (Option Shape)} (hg : GWF g) (r : Nat)
    (hr : r < 20) :
    GWF (Board.copyRowDown g r) ∧
    ∀ x' y', x' < 10 → y' < 20 →
      cellAt (Board.copyRowDown g r) x' y' =
        if y' = r then (if r = 0 then none else cellAt g x' (r - 1))
        else cellAt g x' y' := by
  by_cases hr0 : r = 0
  · subst hr0
    have hzero : Board.copyRowDown g 0 = Board.clearRow g 0 := by
      unfold Board.copyRowDown Board.clearRow
      simp
    rw [hzero]
    obtain ⟨hgwf, hcell⟩ := clearRow_cell hg 0 (by omega)
    refine ⟨hgwf, ?_⟩
    intro x' y' hx' hy'
    rw [hcell x' y' hx' hy']
    by_cases hc : y' = 0
    · rw [if_pos hc, if_pos hc, if_pos rfl]
    · rw [if_neg hc, if_neg hc]
  · unfold Board.copyRowDown
    rw [hg.2.1]
    have hfun : (fun (g : Grid (Option Shape)) x =>
        if r = 0 then g.setD x r none else g.setD x r (cellAt g x (r - 1))) =
        fun (g : Grid (Option Shape)) x => g.setD x r (cellAt g x (r - 1)) := by
      funext g x
      rw [if_neg hr0]
    rw [hfun]
    obtain ⟨hgwf, hcell⟩ := copyRowDown_go r hr hr0 (List.range 10) g hg
      (fun x hx => List.mem_range.mp hx)
    refine ⟨hgwf, ?_⟩
    intro x' y' hx' hy'
    rw [hcell x' y' hx' hy', if_neg hr0]
    by_cases hc : y' = r
    · rw [if_pos ⟨List.mem_range.mpr hx', hc⟩, if_pos hc]
    · rw [if_neg (by tauto), if_neg hc]

theorem shiftDownFrom_zero (g : Grid (Option Shape)) :
    Board.shiftDownFrom g 0 = Board.copyRowDown g 0 := by
  unfold Board.shiftDownFrom
  rfl

theorem shiftDownFrom_succ (g : Grid (Option Shape)) (n : Nat) :
    Board.shiftDownFrom g (n + 1) =
      Board.shiftDownFrom (Board.copyRowDown g (n + 1)) n := by
  unfold Board.shiftDownFrom
  rw [List.range_succ]
  simp

/-- Helper: pointwise description of the whole shift loop from `row` down to
0: row 0 is cleared, rows `1..=row` each receive the previous contents of
the row above, rows beyond `row` are untouched. -/
theorem shiftDownFrom_cell :
    ∀ (row : Nat), row < 20 → ∀ (g : Grid (Option Shape)), GWF g →
      GWF (Board.shiftDownFrom g row) ∧
      ∀ x' y', x' < 10 → y' < 20 →
        cellAt (Board.shiftDownFrom g row) x' y' =
          if y' = 0 then none
          else if y' ≤ row then cellAt g x' (y' - 1)
          else cellAt g x' y' := by
  intro row
  induction row with
  | zero =>
    intro _ g hg
    rw [shiftDownFrom_zero]
    obtain ⟨hgwf, hcell⟩ := copyRowDown_cell hg 0 (by omega)
    refine ⟨hgwf, ?_⟩
    intro x' y' hx' hy'
    rw [hcell x' y' hx' hy']
    by_cases hc : y' = 0
    · rw [if_pos hc, if_pos hc, if_pos rfl]
    · rw [if_neg hc, if_neg hc, if_neg (by omega)]
  | succ n ih =>
    intro hn g hg
    rw [shiftDownFrom_succ]
    obtain ⟨hg2wf, hg2cell⟩ := copyRowDown_cell hg (n + 1) hn
    obtain ⟨hgwf, hcell⟩ := ih (by omega) (Board.copyRowDown g (n + 1)) hg2wf
    refine ⟨hgwf, ?_⟩
    intro x' y' hx' hy'
    rw [hcell x' y' hx' hy']
    by_cases hc0 : y' = 0
    · rw [if_pos hc0, if_pos hc0]
    · rw [if_neg hc0, if_neg hc0]
      by_cases hcn : y' ≤ n
      · have h1 : y' ≤ n + 1 := by omega
        have h2 : ¬(y' - 1 = n + 1) := by omega
        rw [if_pos hcn, if_pos h1, hg2cell x' (y' - 1) hx' (by omega), if_neg h2]
      · rw [if_neg hcn]
        by_cases hceq : y' = n + 1
        · subst hceq
          have h3 : ¬(n + 1 = 0) := by omega
          have h4 : n + 1 ≤ n + 1 := le_refl _
          rw [hg2cell x' (n + 1) hx' hy', if_pos rfl, if_neg h3, if_pos h4]
        · have h5 : ¬(y' ≤ n + 1) := by omega
          rw [hg2cell x' y' hx' hy', if_neg hceq, if_neg h5]

/-- Helper: pointwise description of one complete-row clearing step (clear
the row, then shift everything above it down one row). -/
theorem clearShift_cell {g : Grid (Option Shape)} (hg : GWF g) (row : Nat)
    (hrow : row < 20) :
    GWF (Board.shiftDownFrom (Board.clearRow g row) row) ∧
    ∀ x' y', x' < 10 → y' < 20 →
      cellAt (Board.shiftDownFrom (Board.clearRow g row) row) x' y' =
        if y' = 0 then none
        else if y' ≤ row then cellAt g x' (y' - 1)
        else cellAt g x' y' := by
  obtain ⟨hcwf, hccell⟩ := clearRow_cell hg row hrow
  obtain ⟨hswf, hscell⟩ := shiftDownFrom_cell row hrow (Board.clearRow g row) hcwf
  refine ⟨hswf, ?_⟩
  intro x' y' hx' hy'
  rw [hscell x' y' hx' hy']
  by_cases hc0 : y' = 0
  · rw [if_pos hc0, if_pos hc0]
  · rw [if_neg hc0, if_neg hc0]
    by_cases hcr : y' ≤ row
    · rw [if_pos hcr, if_pos hcr, hccell x' (y' - 1) hx' (by omega),
        if_neg (by omega)]
    · rw [if_neg hcr, if_neg hcr, hccell x' y' hx' hy', if_neg (by omega)]

/-- The number of complete rows among rows `0..i` of a grid. -/
def compCount (g : Grid (Option Shape)) (i : Nat) : Nat :=
  (List.range i).countP fun j => Board.rowComplete g j

/-- The number of complete rows among rows `j..i` of a grid
("rows cleared at or below row `j`" once `i` reaches the board height). -/
def compFrom (g : Grid (Option Shape)) (j i : Nat) : Nat :=
  (List.range i).countP fun k => Board.rowComplete g k && decide (j ≤ k)

theorem compCount_succ (g : Grid (Option Shape)) (i : Nat) :
    compCount g (i + 1) =
      compCount g i + (if Board.rowComplete g i then 1 else 0) := by
  unfold compCount
  rw [List.range_succ, List.countP_append]
  simp [List.countP_cons]

theorem compCount_le (g : Grid (Option Shape)) (i : Nat) : compCount g i ≤ i := by
  unfold compCount
  calc (List.range i).countP _ ≤ (List.range i).length := List.countP_le_length _
    _ = i := List.length_range i

theorem compFrom_succ (g : Grid (Option Shape)) (j i : Nat) :
    compFrom g j (i + 1) =
      compFrom g j i + (if Board.rowComplete g i ∧ j ≤ i then 1 else 0) := by
  unfold compFrom
  rw [List.range_succ, List.countP_append]
  by_cases hc : Board.rowComplete g i ∧ j ≤ i
  · rw [if_pos hc]
    simp [List.countP_cons, hc.1, hc.2]
  · rw [if_neg hc]
    rcases Decidable.not_and_iff_or_not.mp hc with h | h <;>
      simp [List.countP_cons, h]

theorem compFrom_self (g : Grid (Option Shape)) (j : Nat) : compFrom g j j = 0 := by
  unfold compFrom
  rw [List.countP_eq_zero]
  intro k hk
  have := List.mem_range.mp hk
  simp only [Bool.and_eq_true, decide_eq_true_eq, not_and]
  intro _
  omega

/-- Helper: an incomplete row `j` never lands on or past the scan index:
its landing slot `j + compFrom g j i` stays below `i`. -/
theorem pos_lt_scan (g : Grid (Option Shape)) (j : Nat)
    (hj : Board.rowComplete g j = false) :
    ∀ i, j < i → j + compFrom g j i < i := by
  intro i
  induction i with
  | zero => omega
  | succ n ih =>
    intro hji
    rw [compFrom_succ]
    by_cases hn : j < n
    · have := ih hn
      split_ifs <;> omega
    · have hjn : j = n := by omega
      subst hjn
      rw [if_neg (by rw [hj]; simp), compFrom_self]
      omega

/-- The state of the outer loop of `clear_complete` after scanning the
first `i` rows. -/
def clearLoop (G : Grid (Option Shape)) (i : Nat) : Grid (Option Shape) × Nat :=
  (List.range i).foldl Board.clearStep (G, 0)

theorem clearLoop_succ (G : Grid (Option Shape)) (i : Nat) :
    clearLoop G (i + 1) = Board.clearStep (clearLoop G i) i := by
  unfold clearLoop
  rw [List.range_succ, List.foldl_append]
  rfl

theorem clear_complete_eq (b : Board) (hh : b.grid.height = 20) :
    b.clear_complete = (⟨(clearLoop b.grid 20).1⟩, (clearLoop b.grid 20).2) := by
  unfold Board.clear_complete clearLoop
  rw [hh]

/-- Helper: the loop invariant of `clear_complete`.  After scanning rows
`0..i` of the original grid `G`: the counter equals the number of complete
rows seen; the top `compCount G i` rows of the current grid are empty; each
incomplete row `j < i` now sits `compFrom G j i` rows lower with its cells
intact; conversely every slot between the cleared-row zone and the scan
index holds exactly one such row; and rows from `i` on are untouched. -/
theorem clear_loop_inv (G : Grid (Option Shape)) (hG : GWF G) :
    ∀ i, i ≤ 20 →
      GWF (clearLoop G i).1 ∧
      (clearLoop G i).2 = compCount G i ∧
      (∀ x, x < 10 → ∀ y, y < compCount G i →
          cellAt (clearLoop G i).1 x y = none) ∧
      (∀ j, j < i → Board.rowComplete G j = false → ∀ x, x < 10 →
          cellAt (clearLoop G i).1 x (j + compFrom G j i) = cellAt G x j) ∧
      (∀ y, compCount G i ≤ y → y < i →
          ∃ j, j < i ∧ Board.rowComplete G j = false ∧ y = j + compFrom G j i ∧
            ∀ x, x < 10 → cellAt (clearLoop G i).1 x y = cellAt G x j) ∧
      (∀ x, x < 10 → ∀ y, i ≤ y → y < 20 →
          cellAt (clearLoop G i).1 x y = cellAt G x y) := by
  intro i
  induction i with
  | zero =>
    intro _
    have hc0 : compCount G 0 = 0 := rfl
    refine ⟨hG, rfl, ?_, ?_, ?_, ?_⟩
    · intro x hx y hy
      rw [hc0] at hy
      omega
    · intro j hj
      omega
    · intro y hy1 hy2
      omega
    · intro x hx y _ _
      rfl
  | succ n ih =>
    intro hn1
    obtain ⟨ha, hb, hc, hd, he, hf⟩ := ih (by omega)
    have hn : n < 20 := by omega
    have hcle := compCount_le G n
    have hrc : Board.rowComplete (clearLoop G n).1 n = Board.rowComplete G n :=
      rowComplete_eq hG.2.1 ha.2.1 n n (fun x hx => hf x hx n (le_refl n) hn)
    rw [clearLoop_succ]
    unfold Board.clearStep
    by_cases hcomp : Board.rowComplete G n = true
    · rw [if_pos (by rw [hrc]; exact hcomp)]
      obtain ⟨hswf, hscell⟩ := clearShift_cell ha n hn
      have hcnt : compCount G (n + 1) = compCount G n + 1 := by
        rw [compCount_succ, if_pos hcomp]
      refine ⟨hswf, ?_, ?_, ?_, ?_, ?_⟩
      · show (clearLoop G n).2 + 1 = compCount G (n + 1)
        rw [hb, hcnt]
      · intro x hx y hy
        rw [hcnt] at hy
        rw [hscell x y hx (by omega)]
        by_cases hy0 : y = 0
        · rw [if_pos hy0]
        · rw [if_neg hy0, if_pos (by omega)]
          exact hc x hx (y - 1) (by omega)
      · intro j hj hjinc x hx
        have hjn : j < n := by
          rcases Nat.lt_succ_iff_lt_or_eq.mp hj with h | h
          · exact h
          · subst h
            rw [hcomp] at hjinc
            cases hjinc
        have hpos := pos_lt_scan G j hjinc n hjn
        have hcf : compFrom G j (n + 1) = compFrom G j n + 1 := by
          rw [compFrom_succ, if_pos ⟨hcomp, by omega⟩]
        rw [hcf]
        have harg0 : j + (compFrom G j n + 1) = j + compFrom G j n + 1 := by omega
        rw [harg0, hscell x (j + compFrom G j n + 1) hx (by omega),
          if_neg (by omega), if_pos (by omega)]
        have harg : j + compFrom G j n + 1 - 1 = j + compFrom G j n := by omega
        rw [harg]
        exact hd j hjn hjinc x hx
      · intro y hy1 hy2
        rw [hcnt] at hy1
        obtain ⟨j, hjn, hjinc, hjpos, hjcell⟩ := he (y - 1) (by omega) (by omega)
        refine ⟨j, by omega, hjinc, ?_, ?_⟩
        · rw [compFrom_succ, if_pos ⟨hcomp, by omega⟩]
          omega
        · intro x hx
          rw [hscell x y hx (by omega), if_neg (by omega), if_pos (by omega)]
          exact hjcell x hx
      · intro x hx y hyge hylt
        rw [hscell x y hx hylt, if_neg (by omega), if_neg (by omega)]
        exact hf x hx y (by omega) hylt
    · have hcompf : Board.rowComplete G n = false := by
        cases h : Board.rowComplete G n
        · rfl
        · exact absurd h hcomp
      rw [if_neg (by rw [hrc, hcompf]; simp)]
      have hcnt : compCount G (n + 1) = compCount G n := by
        rw [compCount_succ, hcompf]
        simp
      refine ⟨ha, ?_, ?_, ?_, ?_, ?_⟩
      · rw [hb, hcnt]
      · intro x hx y hy
        rw [hcnt] at hy
        exact hc x hx y hy
      · intro j hj hjinc x hx
        have hcf : compFrom G j (n + 1) = compFrom G j n := by
          rw [compFrom_succ, if_neg (by rw [hcompf]; simp)]
          omega
        rcases Nat.lt_succ_iff_lt_or_eq.mp hj with hjn | hjeq
        · rw [hcf]
          exact hd j hjn hjinc x hx
        · subst hjeq
          rw [hcf, compFrom_self]
          have harg : j + 0 = j := by omega
          rw [harg]
          exact hf x hx j (le_refl j) (by omega)
      · intro y hy1 hy2
        rw [hcnt] at hy1
        rcases Nat.lt_succ_iff_lt_or_eq.mp hy2 with hyn | hyeq
        · obtain ⟨j, hjn, hjinc, hjpos, hjcell⟩ := he y hy1 hyn
          refine ⟨j, by omega, hjinc, ?_, hjcell⟩
          rw [compFrom_succ, if_neg (by rw [hcompf]; simp)]
          exact hjpos
        · subst hyeq
          refine ⟨y, by omega, hcompf, ?_, ?_⟩
          · rw [compFrom_succ, compFrom_self, if_neg (by rw [hcompf]; simp)]
            omega
          · intro x hx
            exact hf x hx y (le_refl y) (by omega)
      · intro x hx y hyge hylt
        exact hf x hx y (by omega) hylt

/-- C2: `clear_complete` clears exactly the complete rows: it returns the
number of rows in which all `WIDTH` cells are `Some` (`compCount`), the top
`compCount` rows of the result are empty, and every incomplete row `j` ends
up shifted down by exactly `compFrom b.grid j 20` — the number of rows
cleared at or below `j` — with its cells intact. -/
theorem clear_complete_spec (b : Board) (hWF : b.WF) :
    (b.clear_complete).2 = compCount b.grid 20 ∧
    (∀ x, x < 10 → ∀ y, y < (b.clear_complete).2 →
        cellAt (b.clear_complete).1.grid x y = none) ∧
    (∀ j, j < 20 → Board.rowComplete b.grid j = false → ∀ x, x < 10 →
        cellAt (b.clear_complete).1.grid x (j + compFrom b.grid j 20) =
          cellAt b.grid x j) := by
  obtain ⟨hl, hw, hh⟩ := (Board.wf_iff b).mp hWF
  obtain ⟨ha, hb2, hc, hd, he, hf⟩ := clear_loop_inv b.grid ⟨hl, hw, hh⟩ 20 (le_refl 20)
  have h2 : (b.clear_complete).2 = compCount b.grid 20 := by
    rw [clear_complete_eq b hh, ← hb2]
  have hgrid : (b.clear_complete).1.grid = (clearLoop b.grid 20).1 := by
    rw [clear_complete_eq b hh]
  refine ⟨h2, ?_, ?_⟩
  · intro x hx y hy
    rw [hgrid]
    exact hc x hx y (h2 ▸ hy)
  · intro j hj hjinc x hx
    rw [hgrid]
    exact hd j hj hjinc x hx

/-- C10: after `clear_complete` no row of the board is complete: every row
of the result has at least one empty cell. -/
theorem clear_complete_no_complete (b : Board) (hWF : b.WF) :
    ∀ y, y < 20 → Board.rowComplete (b.clear_complete).1.grid y = false := by
  obtain ⟨hl, hw, hh⟩ := (Board.wf_iff b).mp hWF
  obtain ⟨ha, hb2, hc, hd, he, hf⟩ := clear_loop_inv b.grid ⟨hl, hw, hh⟩ 20 (le_refl 20)
  intro y hy
  have hgrid : (b.clear_complete).1.grid = (clearLoop b.grid 20).1 := by
    rw [clear_complete_eq b hh]
  rw [hgrid]
  by_cases hcy : y < compCount b.grid 20
  · cases hall : Board.rowComplete (clearLoop b.grid 20).1 y
    · rfl
    · exfalso
      have h0 : cellAt (clearLoop b.grid 20).1 0 y = none := hc 0 (by omega) y hcy
      unfold Board.rowComplete at hall
      rw [List.all_eq_true] at hall
      have hprobe := hall 0 (List.mem_range.mpr (by rw [ha.2.1]; omega))
      rw [h0] at hprobe
      simp at hprobe
  · push_neg at hcy
    obtain ⟨j, hj20, hjinc, hjpos, hjcell⟩ := he y hcy hy
    have heq : Board.rowComplete (clearLoop b.grid 20).1 y =
        Board.rowComplete b.grid j :=
      rowComplete_eq hw ha.2.1 j y fun x hx => hjcell x hx
    rw [heq, hjinc]

/-- C9: on a board with no complete row, `clear_complete` clears nothing,
changes nothing, and returns 0. -/
theorem clear_complete_noop (b : Board) (hWF : b.WF)
    (h : ∀ y, y < 20 → ∃ x, x < 10 ∧ cellAt b.grid x y = none) :
    b.clear_complete = (b, 0) := by
  obtain ⟨hl, hw, hh⟩ := (Board.wf_iff b).mp hWF
  have hnone : ∀ i, i < 20 → Board.rowComplete b.grid i = false := by
    intro i hi
    obtain ⟨x, hx, hcell⟩ := h i hi
    cases hall : Board.rowComplete b.grid i
    · rfl
    · exfalso
      unfold Board.rowComplete at hall
      rw [List.all_eq_true] at hall
      have hprobe := hall x (List.mem_range.mpr (by rw [hw]; omega))
      rw [hcell] at hprobe
      simp at hprobe
  have hloop : ∀ i, i ≤ 20 → clearLoop b.grid i = (b.grid, 0) := by
    intro i
    induction i with
    | zero => intro _; rfl
    | succ n ih =>
      intro hn
      rw [clearLoop_succ, ih (by omega)]
      unfold Board.clearStep
      rw [if_neg (by simp [hnone n (by omega)])]
  rw [clear_complete_eq b hh, hloop 20 (le_refl 20)]

/-- A concrete board whose bottom row (row 19) is completely filled. -/
def fullRowBoard : Board :=
  ⟨⟨List.replicate 190 (none : Option Shape) ++
      List.replicate 10 (some Shape.I), 10, 20⟩⟩

theorem fullRowBoard_WF : fullRowBoard.WF := by
  rw [Board.wf_iff]
  exact ⟨by decide, rfl, rfl⟩

/-- Witness for C2: on the board with exactly its bottom row complete,
`clear_complete` reports one cleared row. -/
theorem clear_complete_spec_witness : (fullRowBoard.clear_complete).2 = 1 := by
  have h := (clear_complete_spec fullRowBoard fullRowBoard_WF).1
  rw [h]
  decide

/-- Witness for C10 at the same board: the bottom row of the result is not
complete. -/
theorem clear_complete_no_complete_witness :
    Board.rowComplete (fullRowBoard.clear_complete).1.grid 19 = false :=
  clear_complete_no_complete fullRowBoard fullRowBoard_WF 19 (by decide)

/-- Witness for C9: clearing the empty board is a no-op. -/
theorem clear_complete_noop_witness :
    Board.empty.clear_complete = (Board.empty, 0) :=
  clear_complete_noop Board.empty Board.empty_WF (by decide)

/-- Helper: every shape table entry is nonempty with offsets in `[0, 3]²`;
in particular each piece owns a square at most 3 below its position. -/
theorem squares_has_offset (s : Shape) (r : Nat) :
    ∃ off ∈ s.squares r, 0 ≤ off.1 ∧ off.1 ≤ 3 ∧ 0 ≤ off.2 ∧ off.2 ≤ 3 := by
  rw [Shape.squares_mod]
  have h4 : r % 4 = 0 ∨ r % 4 = 1 ∨ r % 4 = 2 ∨ r % 4 = 3 := by omega
  rcases h4 with h | h | h | h <;> rw [h] <;> cases s <;> decide

theorem moved_zero (t : Tetromino) : t.moved (0, 0) = t := by
  unfold Tetromino.moved
  simp

theorem moved_moved (t : Tetromino) (a b : Int × Int) :
    (t.moved a).moved b = t.moved (a.1 + b.1, a.2 + b.2) := by
  unfold Tetromino.moved
  simp [add_assoc]

/-- Helper: a piece whose position has sunk to row 20 or below (but still
in `i32` range) can never fit: one of its squares has `y >= 20`, whose
lookup is out of bounds. -/
theorem can_fit_false_low (b : Board) (t : Tetromino) (hWF : b.WF)
    (hp : 20 ≤ t.position.2) (hp2 : t.position.2 ≤ 2147483648) :
    b.can_fit t = false := by
  obtain ⟨hl, hw, hh⟩ := (Board.wf_iff b).mp hWF
  obtain ⟨off, hoff, h1, h2, h3, h4⟩ := squares_has_offset t.shape t.rotation
  have hsq : (off.1 + t.position.1, off.2 + t.position.2) ∈ t.squares :=
    List.mem_map_of_mem _ hoff
  cases hall : b.can_fit t
  · rfl
  · exfalso
    unfold Board.can_fit at hall
    rw [List.all_eq_true] at hall
    have hpred := hall _ hsq
    dsimp only at hpred
    rw [if_neg (by rintro ⟨hc, _⟩; omega)] at hpred
    have hget : b.grid.get (usizeOfInt (off.1 + t.position.1))
        (usizeOfInt (off.2 + t.position.2)) = none := by
      apply Grid.get_oob
      left
      rw [usizeOfInt_of_nonneg (by omega) (by omega)]
      omega
    rw [hget] at hpred
    exact absurd hpred (by simp)

/-- Helper: the hard-drop loop terminates: with fuel exceeding the distance
from the piece to the bottom of the board the loop reaches a state whose
downward move fails, having taken only legal downward steps. -/
theorem drop_loop_term :
    ∀ (fuel : Nat) (g : Game), g.board.WF →
      -2147483648 ≤ g.falling_tetromino.position.2 →
      g.falling_tetromino.position.2 < 2147483648 →
      (20 - g.falling_tetromino.position.2).toNat < fuel →
      ∃ (g' : Game) (k : Nat),
        g.drop_loop fuel = some g' ∧
        g'.board = g.board ∧
        g'.falling_tetromino = g.falling_tetromino.moved (0, (k : Int)) ∧
        (∀ j : Nat, 1 ≤ j → j ≤ k →
            g.board.can_fit (g.falling_tetromino.moved (0, (j : Int))) = true) ∧
        g.board.can_fit (g'.falling_tetromino.moved (0, 1)) = false := by
  intro fuel
  induction fuel with
  | zero =>
    intro g _ _ _ hf
    omega
  | succ n ih =>
    intro g hWF hlo hhi hfuel
    unfold Game.drop_loop
    cases hfit : g.board.can_fit (g.falling_tetromino.moved (0, 1))
    · have hr : g.try_move (0, 1) = (g, false) := by
        unfold Game.try_move
        simp [hfit]
      refine ⟨g, 0, ?_, rfl, ?_, ?_, ?_⟩
      · rw [hr]
        rfl
      · simpa using (moved_zero g.falling_tetromino).symm
      · intro j hj1 hj2
        omega
      · exact hfit
    · have hymoved : (g.falling_tetromino.moved (0, 1)).position.2 =
          g.falling_tetromino.position.2 + 1 := rfl
      have hlt20 : g.falling_tetromino.position.2 < 20 := by
        by_contra hge
        push_neg at hge
        have hfalse := can_fit_false_low g.board
          (g.falling_tetromino.moved (0, 1)) hWF (by rw [hymoved]; omega)
          (by rw [hymoved]; omega)
        rw [hfit] at hfalse
        cases hfalse
      have hr : g.try_move (0, 1) =
          ({ g with falling_tetromino := g.falling_tetromino.moved (0, 1),
                    ticks_elapsed := 0 }, true) := by
        unfold Game.try_move
        simp [hfit]
      obtain ⟨g', k, hloop, hboard, hfall, hfits, hfinal⟩ :=
        ih { g with falling_tetromino := g.falling_tetromino.moved (0, 1),
                    ticks_elapsed := 0 }
          hWF (by rw [hymoved]; omega) (by rw [hymoved]; omega)
          (by rw [hymoved]; omega)
      refine ⟨g', k + 1, ?_, hboard, ?_, ?_, hfinal⟩
      · rw [hr]
        simpa using hloop
      · rw [hfall]
        show (g.falling_tetromino.moved (0, 1)).moved (0, (k : Int)) =
          g.falling_tetromino.moved (0, ((k + 1 : Nat) : Int))
        rw [moved_moved]
        have harg : ((0 : Int) + 0, (1 : Int) + (k : Nat)) =
            ((0 : Int), (((k + 1 : Nat)) : Int)) := by
          rw [Prod.ext_iff]
          constructor
          · omega
          · push_cast
            omega
        rw [harg]
      · intro j hj1 hjk1
        by_cases hj : j = 1
        · subst hj
          simpa using hfit
        · have h := hfits (j - 1) (by omega) (by omega)
          have harg : (g.falling_tetromino.moved (0, 1)).moved
              (0, ((j - 1 : Nat) : Int)) =
              g.falling_tetromino.moved (0, (j : Int)) := by
            rw [moved_moved]
            have : ((0 : Int) + 0, (1 : Int) + ((j - 1 : Nat) : Int)) =
                ((0 : Int), (j : Int)) := by
              rw [Prod.ext_iff]
              constructor
              · omega
              · push_cast
                omega
            rw [this]
          rw [← harg]
          exact h

/-- C8: hard drop terminates: from any state with an `i32`-representable
piece position, the `while try_move((0,1))` loop of `Game::drop` exits
within `(20 - y).toNat + 1` iterations — every success strictly lowers the
piece and `can_fit` rejects any square at or below row 20 — and the piece
is then finalized at its lowest legal position in that single action. -/
theorem drop_terminates (g : Game) (hWF : g.board.WF)
    (hlo : -2147483648 ≤ g.falling_tetromino.position.2)
    (hhi : g.falling_tetromino.position.2 < 2147483648) :
    ∃ (g' : Game) (k : Nat),
      g.drop_loop ((20 - g.falling_tetromino.position.2).toNat + 1) = some g' ∧
      (∀ rand : Shape,
          g.drop rand ((20 - g.falling_tetromino.position.2).toNat + 1) =
            g'.finalize rand) ∧
      g'.board = g.board ∧
      g'.falling_tetromino = g.falling_tetromino.moved (0, (k : Int)) ∧
      (∀ j : Nat, 1 ≤ j → j ≤ k →
          g.board.can_fit (g.falling_tetromino.moved (0, (j : Int))) = true) ∧
      g.board.can_fit (g'.falling_tetromino.moved (0, 1)) = false := by
  obtain ⟨g', k, h1, h2, h3, h4, h5⟩ :=
    drop_loop_term ((20 - g.falling_tetromino.position.2).toNat + 1) g hWF hlo
      hhi (by omega)
  refine ⟨g', k, h1, ?_, h2, h3, h4, h5⟩
  intro rand
  unfold Game.drop
  rw [h1]
  rfl

/-- Witness for C8: the hard-drop loop from a fresh spawn on the empty
board terminates. -/
theorem drop_terminates_witness :
    (demoGame.drop_loop
      ((20 - demoGame.falling_tetromino.position.2).toNat + 1)).isSome = true := by
  obtain ⟨g', k, h1, _⟩ :=
    drop_terminates demoGame Board.empty_WF (by decide) (by decide)
  rw [h1]
  rfl

/-- A board empty except for one settled square at `(4, 0)`, directly in
the spawn area of the next piece. -/
def overBoard : Board :=
  ⟨⟨(List.replicate 200 (none : Option Shape)).set 4 (some Shape.O), 10, 20⟩⟩

/-- A session about to lock its piece harmlessly at the bottom while the
next spawn (an O piece at the origin, covering `(4, 0)`) is blocked. -/
def overGame : Game :=
  { board := overBoard,
    falling_tetromino := { position := (0, 17), rotation := 0, shape := Shape.O },
    next_shape := Shape.O,
    ticks_elapsed := 0,
    score := 0,
    level := 0,
    rows_cleared := 0 }

/-- C3 (showing the code diverges from the claim): `finalize` commits the
piece and the freshly spawned piece fails `can_fit` — the game-over
condition — yet the session has no game-over flag and the very next `tick`
still mutates the state (`ticks_elapsed` goes from 0 to 1); the Rust code
merely prints "Game over!" (`// TODO Game over screen.`) and keeps
processing. -/
theorem game_over_not_terminal :
    (overGame.finalize Shape.I).map
        (fun g => g.board.can_fit g.falling_tetromino) = some false ∧
    (overGame.finalize Shape.I).map (fun g => g.ticks_elapsed) = some 0 ∧
    ((overGame.finalize Shape.I).bind (fun g => g.tick Shape.I)).map
        (fun g => g.ticks_elapsed) = some 1 := by
  decide
